import Mathlib

/-!
Verification of the collection document model, tree navigator, request
executor and persistence helpers of the api-forge-web repository
(src/utils/postmanUtils.ts, src/types/postman.ts, PostmanApp component).

Conventions of the embedding:
* TypeScript interfaces become Lean structures; optional fields become
  `Option`; the `PostmanItem | string`-style unions become small inductives.
* JSON values are modelled by the `Json` inductive.  `JSON.stringify`
  followed by `JSON.parse` on the receiving side is the identity on JSON
  values (platform behaviour for well-formed JSON data), so serialization
  is modelled at the JSON-value level: `exportCollection` produces the
  JSON value that `JSON.parse (JSON.stringify c)` would yield.
* JavaScript `Record<string, string>` objects used as header maps become
  association lists with JS object-update semantics (`setKV` overwrites an
  existing key in place, otherwise appends).
* JavaScript truthiness tests on strings (`h.key && h.value`, `if (token)`)
  are modelled as inequality with the empty string; truthiness of an
  optional array (`item.item`, `request.auth.bearer`) is `Option.isSome`
  (an empty array is truthy in JavaScript).
-/

/-- JSON values, the universe in which collections are serialized. -/
inductive Json where
  | null : Json
  | bool (b : Bool) : Json
  | num (n : Int) : Json
  | str (s : String) : Json
  | arr (xs : List Json) : Json
  | obj (fields : List (String × Json)) : Json

/-- HTTP methods, from the `HttpMethod` union in src/types/postman.ts. -/
inductive HttpMethod where
  | GET | POST | PUT | DELETE | PATCH | HEAD | OPTIONS
deriving DecidableEq

/-- Auth kinds, from the `type` union of `PostmanAuth`. -/
inductive AuthType where
  | noauth | bearer | oauth2 | basic | apikey
deriving DecidableEq

/-- Body modes, from the `mode` union of `PostmanBody`. -/
inductive BodyMode where
  | raw | formdata | urlencoded | binary | graphql
deriving DecidableEq

/-- The `info` object of `PostmanCollection` (src/types/postman.ts).
`postman_id` embeds the `_postman_id` field, `exporter_id` embeds
`_exporter_id`. -/
structure CollectionInfo where
  postman_id : String
  name : String
  schema : String
  exporter_id : Option String
  description : Option String

/-- One query parameter of a `PostmanUrl` object. -/
structure QueryParam where
  key : String
  value : String

/-- The structured `PostmanUrl` interface. -/
structure PostmanUrlObj where
  raw : String
  protocol : Option String
  host : Option (List String)
  port : Option String
  path : Option (List String)
  query : Option (List QueryParam)

/-- The `PostmanUrl | string` union used for `PostmanRequest.url`. -/
inductive PostmanUrlField where
  | str (s : String)
  | obj (u : PostmanUrlObj)

/-- Key/value/type triples used by the auth config lists and formdata. -/
structure KVT where
  key : String
  value : String
  type : String

/-- The `PostmanAuth` interface. -/
structure PostmanAuth where
  type : AuthType
  bearer : Option (List KVT)
  oauth2 : Option (List KVT)
  basic : Option (List KVT)
  apikey : Option (List KVT)

/-- The `options.raw` object inside a `PostmanBody`. -/
structure RawOptions where
  language : String

/-- The `options` object inside a `PostmanBody`. -/
structure BodyOptions where
  raw : Option RawOptions

/-- The `PostmanBody` interface. -/
structure PostmanBody where
  mode : BodyMode
  raw : Option String
  options : Option BodyOptions
  formdata : Option (List KVT)

/-- The `PostmanHeader` interface. -/
structure PostmanHeader where
  key : String
  value : String
  type : Option String
  disabled : Option Bool

/-- The `PostmanRequest` interface. -/
structure PostmanRequest where
  method : HttpMethod
  header : List PostmanHeader
  body : Option PostmanBody
  url : PostmanUrlField
  auth : Option PostmanAuth

/-- The `PostmanItem` interface: a tree node that may carry a subitem list
(`item`, marking a folder), a request payload, a stored response list and
a `protocolProfileBehavior` blob.  All four are optional, exactly as in
the TypeScript declaration. -/
inductive PostmanItem where
  | mk (name : String) (item : Option (List PostmanItem))
       (request : Option PostmanRequest) (response : Option (List Json))
       (protocolProfileBehavior : Option Json)

/-- The `name` field of an item. -/
def PostmanItem.name : PostmanItem → String
  | .mk n _ _ _ _ => n

/-- The `item` (subitem list) field of an item; `some` marks a folder. -/
def PostmanItem.item : PostmanItem → Option (List PostmanItem)
  | .mk _ i _ _ _ => i

/-- The `request` field of an item; `some` marks a leaf request. -/
def PostmanItem.request : PostmanItem → Option PostmanRequest
  | .mk _ _ r _ _ => r

/-- The `response` field of an item. -/
def PostmanItem.response : PostmanItem → Option (List Json)
  | .mk _ _ _ r _ => r

/-- The `protocolProfileBehavior` field of an item. -/
def PostmanItem.ppb : PostmanItem → Option Json
  | .mk _ _ _ _ p => p

/-- Replace the subitem list of an item, keeping every other field.  Used to
model in-place `folder.item.push(...)` mutation in a value semantics. -/
def PostmanItem.setItem : PostmanItem → List PostmanItem → PostmanItem
  | .mk n _ r resp p, l => .mk n (some l) r resp p

/-- The `PostmanCollection` interface. -/
structure PostmanCollection where
  info : CollectionInfo
  item : List PostmanItem

/-- The `RequestResponse` interface: the normalized result of one request
execution. -/
structure RequestResponse where
  status : Nat
  statusText : String
  headers : List (String × String)
  data : Json
  responseTime : Nat
  size : Nat

/-!
## Tree Navigator: findItemByPath (postmanUtils.ts lines 45-58)

The source keeps two mutable variables, `current` (the sibling list being
searched) and `item` (the last matched node), and iterates over the path
segments:

    for (const segment of path) {
      item = current.find(i => i.name === segment) || null;
      if (!item) return null;
      if (item.item) { current = item.item; }
    }
    return item;

Note that when the matched node has no `item` field the walk does NOT
stop: `current` is left unchanged, so the next segment is searched in the
same sibling list.
-/

/-- The loop body of `findItemByPath`: `current` is the sibling list under
scan, `acc` the last matched item (`null` initially). -/
def findLoop : List PostmanItem → Option PostmanItem → List String → Option PostmanItem
  | _, acc, [] => acc
  | current, _, seg :: rest =>
    match current.find? (fun i => i.name == seg) with
    | none => none
    | some i =>
      match i.item with
      | some subs => findLoop subs (some i) rest
      | none => findLoop current (some i) rest

/-- `findItemByPath(collection, path)` from postmanUtils.ts lines 45-58. -/
def findItemByPath (c : PostmanCollection) (path : List String) : Option PostmanItem :=
  findLoop c.item none path

/-!
## Request Executor: executeRequest (postmanUtils.ts lines 60-134)

The preparation of the outgoing call (lines 64-97) is pure and is embedded
as `prepareCall`; the catch branch (lines 122-133) is embedded as
`errorResponse`.  The transport itself (`fetch`) is outside the program.
-/

/-- JS object-update on a string-keyed record: overwrite an existing key in
place, otherwise append the binding. -/
def setKV : List (String × String) → String → String → List (String × String)
  | [], k, v => [(k, v)]
  | (k1, v1) :: rest, k, v =>
    if k1 == k then (k1, v) :: rest else (k1, v1) :: setKV rest k v

/-- JS property read on a string-keyed record. -/
def getKV : List (String × String) → String → Option String
  | [], _ => none
  | (k1, v1) :: rest, k => if k1 == k then some v1 else getKV rest k

/-- The filter of lines 70-72: `!h.disabled && h.key && h.value`
(JS truthiness: absent or false `disabled`; non-empty key and value). -/
def headerKept (h : PostmanHeader) : Bool :=
  (match h.disabled with | some true => false | _ => true)
    && h.key != "" && h.value != ""

/-- Lines 68-73: copy each kept header into the outgoing record. -/
def buildHeaders (hs : List PostmanHeader) : List (String × String) :=
  hs.foldl (fun m h => if headerKept h then setKV m h.key h.value else m) []

/-- Lines 76-81: if auth type is bearer, the bearer list is present and the
first entry keyed "token" has a truthy (non-empty) value, overwrite the
`Authorization` header. -/
def applyAuth (auth : Option PostmanAuth) (m : List (String × String)) :
    List (String × String) :=
  match auth with
  | none => m
  | some a =>
    match a.type with
    | AuthType.bearer =>
      match a.bearer with
      | none => m
      | some l =>
        match l.find? (fun kvt => kvt.key == "token") with
        | none => m
        | some kvt =>
          if kvt.value == "" then m
          else setKV m "Authorization" ("Bearer " ++ kvt.value)
    | _ => m

/-- The outbound call handed to `fetch` on lines 93-97. -/
structure OutgoingCall where
  url : String
  method : HttpMethod
  headers : List (String × String)
  body : Option String

/-- Line 65: `typeof request.url === 'string' ? request.url : request.url?.raw || ''`
(for a url object, `raw || ''` equals `raw`). -/
def resolveUrl : PostmanUrlField → String
  | PostmanUrlField.str s => s
  | PostmanUrlField.obj u => u.raw

/-- Lines 84-86: the body variable is set only when the body mode is raw
and the raw text is truthy (non-empty). -/
def preparedBody (r : PostmanRequest) : Option String :=
  match r.body with
  | none => none
  | some b =>
    match b.mode with
    | BodyMode.raw =>
      match b.raw with
      | none => none
      | some s => if s == "" then none else some s
    | _ => none

/-- The header record after the copy step and the auth overlay
(lines 68-81). -/
def headersAfterAuth (r : PostmanRequest) : List (String × String) :=
  applyAuth r.auth (buildHeaders r.header)

/-- Lines 87-89: when a body was prepared and the record has no truthy
`Content-Type` entry, default it to `application/json`. -/
def finalHeaders (r : PostmanRequest) : List (String × String) :=
  match preparedBody r with
  | none => headersAfterAuth r
  | some _ =>
    if (getKV (headersAfterAuth r) "Content-Type").getD "" == "" then
      setKV (headersAfterAuth r) "Content-Type" "application/json"
    else headersAfterAuth r

/-- Line 96: `body: body && request.method !== 'GET' ? body : undefined`. -/
def sentBody (r : PostmanRequest) : Option String :=
  match preparedBody r with
  | none => none
  | some s =>
    match r.method with
    | HttpMethod.GET => none
    | _ => some s

/-- Lines 64-97 of `executeRequest`: resolve the URL, build the header set,
overlay auth, prepare the raw body (defaulting `Content-Type` when absent
or empty, the JS falsy test of line 87), and drop the body for GET. -/
def prepareCall (r : PostmanRequest) : OutgoingCall :=
  { url := resolveUrl r.url
    method := r.method
    headers := finalHeaders r
    body := sentBody r }

/-- The value caught by the catch branch: a thrown `Error` object carrying a
message, or any other thrown value. -/
inductive TransportError where
  | jsError (message : String)
  | nonErrorValue

/-- `error instanceof Error ? error.message : 'Unknown error'` (line 129). -/
def TransportError.message : TransportError → String
  | .jsError m => m
  | .nonErrorValue => "Unknown error"

/-- Lines 122-133: the RequestResponse produced when the transport (or any
step inside the try block) throws.  `elapsed` is the measured wall-clock
delta. -/
def errorResponse (e : TransportError) (elapsed : Nat) : RequestResponse :=
  { status := 0
    statusText := "Network Error"
    headers := []
    data := Json.obj [("error", Json.str e.message)]
    responseTime := elapsed
    size := 0 }

/-- Specification-side reading used by the corrected claim about the header
set: the value recorded for key `k` is the value of the last header in
document order that passes the kept filter and has key `k`. -/
def lastEnabledValue (hs : List PostmanHeader) (k : String) : Option String :=
  hs.foldl (fun acc h => if headerKept h && h.key == k then some h.value else acc) none

/-!
## Serialization (postmanUtils.ts lines 3-9)

`exportCollection` is `JSON.stringify(collection, null, 2)` and
`parsePostmanCollection` is an unchecked cast of the value produced by
`JSON.parse`.  `JSON.parse (JSON.stringify v)` is the identity on JSON
values, so the wire format is modelled at the JSON-value level:
`exportCollection` maps a collection to the JSON value that
`JSON.stringify` would print (dropping absent optional fields, the way
`JSON.stringify` drops `undefined` properties), and `parsePostmanCollection`
reads a JSON value back into the document-model shapes the application
accesses.
-/

/-- A field of a serialized object: present when the optional value is. -/
def optField (k : String) : Option Json → List (String × Json)
  | some j => [(k, j)]
  | none => []

def methodToString : HttpMethod → String
  | .GET => "GET"
  | .POST => "POST"
  | .PUT => "PUT"
  | .DELETE => "DELETE"
  | .PATCH => "PATCH"
  | .HEAD => "HEAD"
  | .OPTIONS => "OPTIONS"

def stringToMethod : String → Option HttpMethod
  | "GET" => some .GET
  | "POST" => some .POST
  | "PUT" => some .PUT
  | "DELETE" => some .DELETE
  | "PATCH" => some .PATCH
  | "HEAD" => some .HEAD
  | "OPTIONS" => some .OPTIONS
  | _ => none

def authTypeToString : AuthType → String
  | .noauth => "noauth"
  | .bearer => "bearer"
  | .oauth2 => "oauth2"
  | .basic => "basic"
  | .apikey => "apikey"

def stringToAuthType : String → Option AuthType
  | "noauth" => some .noauth
  | "bearer" => some .bearer
  | "oauth2" => some .oauth2
  | "basic" => some .basic
  | "apikey" => some .apikey
  | _ => none

def bodyModeToString : BodyMode → String
  | .raw => "raw"
  | .formdata => "formdata"
  | .urlencoded => "urlencoded"
  | .binary => "binary"
  | .graphql => "graphql"

def stringToBodyMode : String → Option BodyMode
  | "raw" => some .raw
  | "formdata" => some .formdata
  | "urlencoded" => some .urlencoded
  | "binary" => some .binary
  | "graphql" => some .graphql
  | _ => none

def encodeKVT (x : KVT) : Json :=
  Json.obj [("key", Json.str x.key), ("value", Json.str x.value),
            ("type", Json.str x.type)]

def encodeQueryParam (q : QueryParam) : Json :=
  Json.obj [("key", Json.str q.key), ("value", Json.str q.value)]

def encodeInfo (i : CollectionInfo) : Json :=
  Json.obj ([("_postman_id", Json.str i.postman_id),
             ("name", Json.str i.name),
             ("schema", Json.str i.schema)]
    ++ optField "_exporter_id" (i.exporter_id.map Json.str)
    ++ optField "description" (i.description.map Json.str))

def encodeUrlObj (u : PostmanUrlObj) : Json :=
  Json.obj ([("raw", Json.str u.raw)]
    ++ optField "protocol" (u.protocol.map Json.str)
    ++ optField "host" (u.host.map (fun l => Json.arr (l.map Json.str)))
    ++ optField "port" (u.port.map Json.str)
    ++ optField "path" (u.path.map (fun l => Json.arr (l.map Json.str)))
    ++ optField "query" (u.query.map (fun l => Json.arr (l.map encodeQueryParam))))

def encodeUrlField : PostmanUrlField → Json
  | .str s => Json.str s
  | .obj u => encodeUrlObj u

def encodeAuth (a : PostmanAuth) : Json :=
  Json.obj ([("type", Json.str (authTypeToString a.type))]
    ++ optField "bearer" (a.bearer.map (fun l => Json.arr (l.map encodeKVT)))
    ++ optField "oauth2" (a.oauth2.map (fun l => Json.arr (l.map encodeKVT)))
    ++ optField "basic" (a.basic.map (fun l => Json.arr (l.map encodeKVT)))
    ++ optField "apikey" (a.apikey.map (fun l => Json.arr (l.map encodeKVT))))

def encodeRawOptions (ro : RawOptions) : Json :=
  Json.obj [("language", Json.str ro.language)]

def encodeBodyOptions (bo : BodyOptions) : Json :=
  Json.obj (optField "raw" (bo.raw.map encodeRawOptions))

def encodeBody (b : PostmanBody) : Json :=
  Json.obj ([("mode", Json.str (bodyModeToString b.mode))]
    ++ optField "raw" (b.raw.map Json.str)
    ++ optField "options" (b.options.map encodeBodyOptions)
    ++ optField "formdata" (b.formdata.map (fun l => Json.arr (l.map encodeKVT))))

def encodeHeader (h : PostmanHeader) : Json :=
  Json.obj ([("key", Json.str h.key), ("value", Json.str h.value)]
    ++ optField "type" (h.type.map Json.str)
    ++ optField "disabled" (h.disabled.map Json.bool))

def encodeRequest (r : PostmanRequest) : Json :=
  Json.obj ([("method", Json.str (methodToString r.method)),
             ("header", Json.arr (r.header.map encodeHeader))]
    ++ optField "body" (r.body.map encodeBody)
    ++ [("url", encodeUrlField r.url)]
    ++ optField "auth" (r.auth.map encodeAuth))

mutual

def encodeItem : PostmanItem → Json
  | .mk n sub req resp ppb =>
    Json.obj ([("name", Json.str n)]
      ++ (match sub with
          | some l => [("item", Json.arr (encodeItemList l))]
          | none => [])
      ++ optField "request" (req.map encodeRequest)
      ++ optField "response" (resp.map Json.arr)
      ++ optField "protocolProfileBehavior" ppb)

def encodeItemList : List PostmanItem → List Json
  | [] => []
  | x :: xs => encodeItem x :: encodeItemList xs

end

/-- `exportCollection` (postmanUtils.ts lines 7-9), at the JSON-value
level: the JSON value printed by `JSON.stringify(collection, null, 2)`. -/
def exportCollection (c : PostmanCollection) : Json :=
  Json.obj [("info", encodeInfo c.info),
            ("item", Json.arr (encodeItemList c.item))]

/-- Property read on a serialized object. -/
def getField : List (String × Json) → String → Option Json
  | [], _ => none
  | (k1, v) :: rest, k => if k1 == k then some v else getField rest k

def asStr : Json → Option String
  | Json.str s => some s
  | _ => none

def asBool : Json → Option Bool
  | Json.bool b => some b
  | _ => none

def asArr : Json → Option (List Json)
  | Json.arr xs => some xs
  | _ => none

/-- Read an optional field: absent is `none`, present must decode. -/
def optOf {α : Type} (fields : List (String × Json)) (k : String)
    (f : Json → Option α) : Option (Option α) :=
  match getField fields k with
  | none => some none
  | some j => (f j).map some

/-- Decode every element of a serialized array. -/
def decodeList {α : Type} (f : Json → Option α) : List Json → Option (List α)
  | [] => some []
  | x :: xs =>
    match f x, decodeList f xs with
    | some a, some as => some (a :: as)
    | _, _ => none

def decodeKVT (j : Json) : Option KVT :=
  match j with
  | Json.obj fields => do
    let k ← (getField fields "key").bind asStr
    let v ← (getField fields "value").bind asStr
    let t ← (getField fields "type").bind asStr
    some ⟨k, v, t⟩
  | _ => none

def decodeQueryParam (j : Json) : Option QueryParam :=
  match j with
  | Json.obj fields => do
    let k ← (getField fields "key").bind asStr
    let v ← (getField fields "value").bind asStr
    some ⟨k, v⟩
  | _ => none

def decodeInfo (j : Json) : Option CollectionInfo :=
  match j with
  | Json.obj fields => do
    let pid ← (getField fields "_postman_id").bind asStr
    let nm ← (getField fields "name").bind asStr
    let sc ← (getField fields "schema").bind asStr
    let ex ← optOf fields "_exporter_id" asStr
    let de ← optOf fields "description" asStr
    some ⟨pid, nm, sc, ex, de⟩
  | _ => none

def decodeUrlObj (fields : List (String × Json)) : Option PostmanUrlObj := do
  let raw ← (getField fields "raw").bind asStr
  let proto ← optOf fields "protocol" asStr
  let host ← optOf fields "host" (fun j => (asArr j).bind (decodeList asStr))
  let port ← optOf fields "port" asStr
  let path ← optOf fields "path" (fun j => (asArr j).bind (decodeList asStr))
  let query ← optOf fields "query" (fun j => (asArr j).bind (decodeList decodeQueryParam))
  some ⟨raw, proto, host, port, path, query⟩

def decodeUrlField : Json → Option PostmanUrlField
  | Json.str s => some (.str s)
  | Json.obj fields => (decodeUrlObj fields).map .obj
  | _ => none

def decodeAuth (j : Json) : Option PostmanAuth :=
  match j with
  | Json.obj fields => do
    let ts ← (getField fields "type").bind asStr
    let ty ← stringToAuthType ts
    let be ← optOf fields "bearer" (fun j => (asArr j).bind (decodeList decodeKVT))
    let oa ← optOf fields "oauth2" (fun j => (asArr j).bind (decodeList decodeKVT))
    let ba ← optOf fields "basic" (fun j => (asArr j).bind (decodeList decodeKVT))
    let ak ← optOf fields "apikey" (fun j => (asArr j).bind (decodeList decodeKVT))
    some ⟨ty, be, oa, ba, ak⟩
  | _ => none

def decodeRawOptions (j : Json) : Option RawOptions :=
  match j with
  | Json.obj fields => do
    let lang ← (getField fields "language").bind asStr
    some ⟨lang⟩
  | _ => none

def decodeBodyOptions (j : Json) : Option BodyOptions :=
  match j with
  | Json.obj fields => do
    let r ← optOf fields "raw" decodeRawOptions
    some ⟨r⟩
  | _ => none

def decodeBody (j : Json) : Option PostmanBody :=
  match j with
  | Json.obj fields => do
    let ms ← (getField fields "mode").bind asStr
    let mode ← stringToBodyMode ms
    let raw ← optOf fields "raw" asStr
    let opts ← optOf fields "options" decodeBodyOptions
    let fd ← optOf fields "formdata" (fun j => (asArr j).bind (decodeList decodeKVT))
    some ⟨mode, raw, opts, fd⟩
  | _ => none

def decodeHeader (j : Json) : Option PostmanHeader :=
  match j with
  | Json.obj fields => do
    let k ← (getField fields "key").bind asStr
    let v ← (getField fields "value").bind asStr
    let t ← optOf fields "type" asStr
    let d ← optOf fields "disabled" asBool
    some ⟨k, v, t, d⟩
  | _ => none

def decodeRequest (j : Json) : Option PostmanRequest :=
  match j with
  | Json.obj fields => do
    let ms ← (getField fields "method").bind asStr
    let method ← stringToMethod ms
    let hl ← (getField fields "header").bind asArr
    let header ← decodeList decodeHeader hl
    let body ← optOf fields "body" decodeBody
    let uj ← getField fields "url"
    let url ← decodeUrlField uj
    let auth ← optOf fields "auth" decodeAuth
    some ⟨method, header, body, url, auth⟩
  | _ => none

mutual

/-- Fuel-indexed decoder for the item tree; one unit of fuel is consumed
per constructor, so any fuel at least the tree's size suffices. -/
def decodeItem : Nat → Json → Option PostmanItem
  | 0, _ => none
  | fuel+1, j =>
    match j with
    | Json.obj fields => do
      let nm ← (getField fields "name").bind asStr
      let sub ← (match getField fields "item" with
        | none => some none
        | some (Json.arr xs) => (decodeItemL fuel xs).map some
        | some _ => none)
      let req ← optOf fields "request" decodeRequest
      let resp ← optOf fields "response" asArr
      let ppb ← optOf fields "protocolProfileBehavior" some
      some (PostmanItem.mk nm sub req resp ppb)
    | _ => none

def decodeItemL : Nat → List Json → Option (List PostmanItem)
  | _, [] => some []
  | 0, _ :: _ => none
  | fuel+1, x :: xs => do
    let i ← decodeItem fuel x
    let is ← decodeItemL fuel xs
    some (i :: is)

end

def decodeCollection (fuel : Nat) (j : Json) : Option PostmanCollection :=
  match j with
  | Json.obj fields => do
    let ij ← getField fields "info"
    let info ← decodeInfo ij
    let il ← (getField fields "item").bind asArr
    let items ← decodeItemL fuel il
    some ⟨info, items⟩
  | _ => none

mutual

/-- Size of a JSON value, used as decoding fuel. -/
def jsonSize : Json → Nat
  | .null => 1
  | .bool _ => 1
  | .num _ => 1
  | .str _ => 1
  | .arr xs => 1 + jsonSizeL xs
  | .obj fs => 1 + jsonSizeF fs

def jsonSizeL : List Json → Nat
  | [] => 0
  | x :: xs => 1 + jsonSize x + jsonSizeL xs

def jsonSizeF : List (String × Json) → Nat
  | [] => 0
  | (_, v) :: fs => 1 + jsonSize v + jsonSizeF fs

end

/-- `parsePostmanCollection` (postmanUtils.ts lines 3-5): the unchecked
cast of a parsed JSON value into the document model, embedded as a reader
of the shapes the application accesses.  The fuel `jsonSize j` always
suffices because every decoding step descends into the value. -/
def parsePostmanCollection (j : Json) : Option PostmanCollection :=
  decodeCollection (jsonSize j) j

/-!
## Directory backend: loadCollectionsFromFolder (postmanUtils.ts 183-204)

A directory entry is a name, a handle kind, and the outcome of reading and
JSON-parsing the entry: `none` models a read or parse failure (the
per-entry catch logs and skips), `some j` the successfully parsed JSON
value.  Matching files are parsed in order; a failed entry contributes
nothing and does not abort the remaining entries.
-/

/-- One entry of the granted directory, with its read/parse outcome. -/
structure DirEntry where
  name : String
  kind : String
  content : Option Json

/-- The JS `name.endsWith('.collection.json')` test of line 188, evaluated
on the underlying character sequence. -/
def strEndsWith (s suffix : String) : Bool :=
  suffix.data.isSuffixOf s.data

/-- `loadCollectionsFromFolder` (postmanUtils.ts lines 183-204). -/
def loadCollectionsFromFolder (entries : List DirEntry) : List PostmanCollection :=
  entries.filterMap fun e =>
    if e.kind == "file" && strEndsWith e.name ".collection.json" then
      match e.content with
      | some j => parsePostmanCollection j
      | none => none
    else none

/-!
## Collection Mutator: handleAddRequest (PostmanApp.tsx lines 400-425)

The component maps over the collection set; for each collection whose
`_postman_id` equals the target's, it either pushes the new request at the
root (no folder path, or an empty one) or locates the folder via
`findItemByPath` and pushes into its subitem list when the located node
has one.  The in-place `folder.item.push(newRequest)` is embedded as a
rebuild of the spine down to the located node; the walk of the rebuild is
the walk of `findItemByPath`, including its behaviour of staying in the
same sibling list when the matched node has no subitem list.
-/

/-- Replace the first sibling named `seg` (the node `current.find` would
return and that the source mutates through). -/
def replaceFirst : List PostmanItem → String → PostmanItem → List PostmanItem
  | [], _, _ => []
  | x :: xs, seg, y =>
    if x.name == seg then y :: xs else x :: replaceFirst xs seg y

/-- Walk `path` exactly as `findItemByPath` does and push `nr` into the
subitem list of the finally matched node.  Returns `none` when the walk
fails or the final node has no subitem list — the cases in which the
source performs no mutation. -/
def pushAt (nr : PostmanItem) : List PostmanItem → List String → Option (List PostmanItem)
  | _, [] => none
  | current, seg :: rest =>
    match current.find? (fun i => i.name == seg) with
    | none => none
    | some i =>
      match i.item with
      | some subs =>
        match rest with
        | [] => some (replaceFirst current seg (i.setItem (subs ++ [nr])))
        | _ :: _ =>
          match pushAt nr subs rest with
          | some subs2 => some (replaceFirst current seg (i.setItem subs2))
          | none => none
      | none =>
        match rest with
        | [] => none
        | _ :: _ => pushAt nr current rest

/-- `handleAddRequest` (PostmanApp.tsx lines 400-425), with the prompt for
the new request's name already answered: append `nr` to every collection
whose id matches `targetId`, at the root when `folderPath` is absent or
empty, otherwise into the folder located by the path. -/
def handleAddRequest (cols : List PostmanCollection) (targetId : String)
    (folderPath : Option (List String)) (nr : PostmanItem) :
    List PostmanCollection :=
  cols.map fun col =>
    if col.info.postman_id == targetId then
      match folderPath with
      | none => { col with item := col.item ++ [nr] }
      | some [] => { col with item := col.item ++ [nr] }
      | some (seg :: rest) =>
        match pushAt nr col.item (seg :: rest) with
        | some items2 => { col with item := items2 }
        | none => col
    else col

/-!
## Lemmas about the header record
-/

theorem getKV_setKV_self (m : List (String × String)) (k v : String) :
    getKV (setKV m k v) k = some v := by
  induction m with
  | nil => simp [setKV, getKV]
  | cons p rest ih =>
    obtain ⟨k1, v1⟩ := p
    by_cases h : k1 = k
    · subst h; simp [setKV, getKV]
    · simp [setKV, getKV, h, ih]

theorem getKV_setKV_ne (m : List (String × String)) (k v k2 : String)
    (h : k ≠ k2) : getKV (setKV m k v) k2 = getKV m k2 := by
  induction m with
  | nil => simp [setKV, getKV, h]
  | cons p rest ih =>
    obtain ⟨k1, v1⟩ := p
    by_cases h1 : k1 = k
    · subst h1; simp [setKV, getKV, h]
    · by_cases h2 : k1 = k2 <;> simp [setKV, getKV, h1, h2, ih, Ne.symm h]

theorem getKV_buildHeaders_aux (k : String) :
    ∀ (hs : List PostmanHeader) (m : List (String × String)),
    getKV (hs.foldl (fun m h => if headerKept h then setKV m h.key h.value else m) m) k
      = hs.foldl (fun acc h => if headerKept h && h.key == k then some h.value else acc)
          (getKV m k) := by
  intro hs
  induction hs with
  | nil => intro m; rfl
  | cons h hs ih =>
    intro m
    simp only [List.foldl_cons]
    rw [ih]
    congr 1
    by_cases hk : headerKept h
    · by_cases hkey : h.key = k
      · subst hkey; simp [hk, getKV_setKV_self]
      · simp [hk, hkey, getKV_setKV_ne _ _ _ _ hkey]
    · simp [hk]

theorem getKV_buildHeaders (hs : List PostmanHeader) (k : String) :
    getKV (buildHeaders hs) k = lastEnabledValue hs k := by
  have h := getKV_buildHeaders_aux k hs []
  simpa [buildHeaders, lastEnabledValue, getKV] using h

/-!
## Claim C9: the empty path never resolves
-/

/-- C9: `findItemByPath(C, [])` returns not-found for every collection; the
loop body never runs and the accumulator is still null. -/
theorem findItemByPath_empty_path (c : PostmanCollection) :
    findItemByPath c [] = none := rfl

/-!
## Claim C2 (corrected): the outgoing header copy step
-/

/-- C2 (amended): the header record built from the request's header list
maps each key `k` to the value of the last header with key `k` that is
enabled AND has non-empty key and value; in particular disabled headers
never contribute.  The original claim — that every enabled header's
key/value pair is copied — fails for enabled headers whose stored value
(or key) is the empty string, which the truthiness test of line 70 skips. -/
theorem buildHeaders_eq_lastEnabledValue (hs : List PostmanHeader) (k : String) :
    getKV (buildHeaders hs) k = lastEnabledValue hs k :=
  getKV_buildHeaders hs k

/-- C2 counterexample: a single enabled header with key "X" and empty
stored value produces an empty outgoing record — the pair ("X", "") is
not copied even though the header is enabled. -/
theorem buildHeaders_drops_enabled_empty_value :
    buildHeaders [{ key := "X", value := "", type := none, disabled := none }] = []
      ∧ getKV (buildHeaders [{ key := "X", value := "", type := none, disabled := none }]) "X"
          = none :=
  ⟨rfl, rfl⟩

/-!
## Claim C5 (corrected): the transport-failure response
-/

/-- C5 (amended): every transport failure is captured into a
RequestResponse with status 0, statusText "Network Error", an empty header
map, size 0 and `data = {error: m}` where `m` is the thrown Error's
message — possibly empty — or "Unknown error" for a non-Error thrown
value; no error escapes the executor (`errorResponse` is total). -/
theorem errorResponse_shape_amended (e : TransportError) (t : Nat) :
    (errorResponse e t).status = 0
      ∧ (errorResponse e t).statusText = "Network Error"
      ∧ (errorResponse e t).headers = []
      ∧ (errorResponse e t).data = Json.obj [("error", Json.str e.message)]
      ∧ (errorResponse e t).responseTime = t
      ∧ (errorResponse e t).size = 0 :=
  ⟨rfl, rfl, rfl, rfl, rfl, rfl⟩

/-- C5 counterexample: a transport failure whose thrown Error carries the
empty message yields `data.error = ""`, refuting the claim that
`data.error` is always a non-empty message. -/
theorem errorResponse_empty_message_counterexample :
    (errorResponse (TransportError.jsError "") 0).data
      = Json.obj [("error", Json.str "")] := rfl

/-!
## Claim C6: GET never sends a body
-/

/-- C6: for every request with method GET the outgoing call carries no
body, even when a raw body with non-empty text is configured (line 96
guards the body with `request.method !== 'GET'`). -/
theorem prepareCall_GET_no_body (r : PostmanRequest)
    (h : r.method = HttpMethod.GET) : (prepareCall r).body = none := by
  show sentBody r = none
  unfold sentBody
  cases hb : preparedBody r <;> simp [h]

/-- A GET request with a configured non-empty raw body, for the C6
witness. -/
def getWithBodyRequest : PostmanRequest :=
  { method := HttpMethod.GET
    header := []
    body := some { mode := BodyMode.raw, raw := some "x", options := none, formdata := none }
    url := PostmanUrlField.str "https://example.test"
    auth := none }

/-- Witness for C6 at a concrete GET request carrying a raw body. -/
theorem prepareCall_GET_no_body_witness :
    getWithBodyRequest.method = HttpMethod.GET
      ∧ preparedBody getWithBodyRequest = some "x"
      ∧ (prepareCall getWithBodyRequest).body = none :=
  ⟨rfl, rfl, prepareCall_GET_no_body getWithBodyRequest rfl⟩

/-!
## Key-uniqueness of the header record and lemmas about the auth overlay
-/

theorem mem_keys_setKV (m : List (String × String)) (k v x : String) :
    x ∈ (setKV m k v).map Prod.fst ↔ x = k ∨ x ∈ m.map Prod.fst := by
  induction m with
  | nil => simp [setKV]
  | cons p rest ih =>
    obtain ⟨k1, v1⟩ := p
    by_cases h : k1 = k
    · subst h; simp [setKV]; try tauto
    · simp [setKV, h, ih]; tauto

theorem keys_nodup_setKV (m : List (String × String)) (k v : String)
    (h : (m.map Prod.fst).Nodup) : ((setKV m k v).map Prod.fst).Nodup := by
  induction m with
  | nil => simp [setKV]
  | cons p rest ih =>
    obtain ⟨k1, v1⟩ := p
    simp only [List.map_cons, List.nodup_cons] at h
    obtain ⟨hk1, hrest⟩ := h
    by_cases hh : k1 = k
    · subst hh
      simp [setKV, List.nodup_cons, hk1, hrest]
    · have hni : k1 ∉ ((setKV rest k v).map Prod.fst) := by
        intro hx
        rcases (mem_keys_setKV rest k v k1).mp hx with h1 | h1
        · exact hh h1
        · exact hk1 h1
      simp [setKV, hh, List.nodup_cons, hni, ih hrest]

theorem keys_nodup_buildHeaders (hs : List PostmanHeader) :
    ((buildHeaders hs).map Prod.fst).Nodup := by
  have key : ∀ (hs : List PostmanHeader) (m : List (String × String)),
      (m.map Prod.fst).Nodup →
      ((hs.foldl (fun m h => if headerKept h then setKV m h.key h.value else m) m).map
        Prod.fst).Nodup := by
    intro hs
    induction hs with
    | nil => intro m hm; exact hm
    | cons h hs ih =>
      intro m hm
      simp only [List.foldl_cons]
      apply ih
      by_cases hk : headerKept h
      · simpa [hk] using keys_nodup_setKV m h.key h.value hm
      · simpa [hk] using hm
  exact key hs [] (by simp)

theorem getKV_applyAuth_ne (a : Option PostmanAuth) (m : List (String × String))
    (k : String) (h : k ≠ "Authorization") :
    getKV (applyAuth a m) k = getKV m k := by
  match a with
  | none => rfl
  | some ⟨ty, be, oa, ba, ak⟩ =>
    cases ty <;> try rfl
    cases be with
    | none => rfl
    | some l =>
      cases hf : l.find? (fun kvt => kvt.key == "token") with
      | none => simp [applyAuth, hf]
      | some kvt =>
        by_cases hv : kvt.value = ""
        · simp [applyAuth, hf, hv]
        · simp [applyAuth, hf, hv, getKV_setKV_ne _ _ _ _ (Ne.symm h)]

theorem keys_nodup_applyAuth (a : Option PostmanAuth) (m : List (String × String))
    (hm : (m.map Prod.fst).Nodup) : ((applyAuth a m).map Prod.fst).Nodup := by
  match a with
  | none => exact hm
  | some ⟨ty, be, oa, ba, ak⟩ =>
    cases ty <;> try exact hm
    cases be with
    | none => exact hm
    | some l =>
      cases hf : l.find? (fun kvt => kvt.key == "token") with
      | none => simpa [applyAuth, hf] using hm
      | some kvt =>
        by_cases hv : kvt.value = ""
        · simpa [applyAuth, hf, hv] using hm
        · simpa [applyAuth, hf, hv] using keys_nodup_setKV m "Authorization" _ hm

theorem keys_nodup_headersAfterAuth (r : PostmanRequest) :
    ((headersAfterAuth r).map Prod.fst).Nodup :=
  keys_nodup_applyAuth r.auth (buildHeaders r.header) (keys_nodup_buildHeaders r.header)

theorem getKV_finalHeaders_ne_ct (r : PostmanRequest) (k : String)
    (h : k ≠ "Content-Type") :
    getKV (finalHeaders r) k = getKV (headersAfterAuth r) k := by
  unfold finalHeaders
  cases hb : preparedBody r
  · rfl
  · by_cases hct : (getKV (headersAfterAuth r) "Content-Type").getD "" == ""
    · simp [hct, getKV_setKV_ne _ _ _ _ (Ne.symm h)]
    · simp [hct]

theorem keys_nodup_finalHeaders (r : PostmanRequest) :
    ((finalHeaders r).map Prod.fst).Nodup := by
  unfold finalHeaders
  cases hb : preparedBody r
  · exact keys_nodup_headersAfterAuth r
  · by_cases hct : (getKV (headersAfterAuth r) "Content-Type").getD "" == ""
    · simpa [hct] using
        keys_nodup_setKV _ "Content-Type" "application/json" (keys_nodup_headersAfterAuth r)
    · simpa [hct] using keys_nodup_headersAfterAuth r

/-- The values stored at key `k`, in record order. -/
def valuesAt : List (String × String) → String → List String
  | [], _ => []
  | (k1, v) :: rest, k =>
    if k1 == k then v :: valuesAt rest k else valuesAt rest k

theorem valuesAt_eq_nil (m : List (String × String)) (k : String)
    (h : k ∉ m.map Prod.fst) : valuesAt m k = [] := by
  induction m with
  | nil => rfl
  | cons p rest ih =>
    obtain ⟨k1, v1⟩ := p
    simp only [List.map_cons, List.mem_cons] at h
    push_neg at h
    simp [valuesAt, Ne.symm h.1, ih h.2]

theorem valuesAt_eq_single (m : List (String × String)) (k v : String)
    (hn : (m.map Prod.fst).Nodup) (h : getKV m k = some v) :
    valuesAt m k = [v] := by
  induction m with
  | nil => simp [getKV] at h
  | cons p rest ih =>
    obtain ⟨k1, v1⟩ := p
    simp only [List.map_cons, List.nodup_cons] at hn
    obtain ⟨hk1, hrest⟩ := hn
    by_cases hh : k1 = k
    · subst hh
      simp [getKV] at h
      simp [valuesAt, valuesAt_eq_nil rest k1 hk1, h]
    · simp [getKV, hh] at h
      simp [valuesAt, hh, ih hrest h]

/-!
## Claim C3 (corrected): the bearer auth overlay
-/

theorem headersAfterAuth_bearer (r : PostmanRequest) (a : PostmanAuth)
    (l : List KVT) (kvt : KVT) (ha : r.auth = some a)
    (ht : a.type = AuthType.bearer) (hb : a.bearer = some l)
    (hf : l.find? (fun x => x.key == "token") = some kvt) (hv : kvt.value ≠ "") :
    headersAfterAuth r
      = setKV (buildHeaders r.header) "Authorization" ("Bearer " ++ kvt.value) := by
  simp [headersAfterAuth, applyAuth, ha, ht, hb, hf, hv]

/-- C3 (amended): if the auth type is bearer, the bearer list is present
and its first entry keyed "token" has a NON-EMPTY value `t`, then the
outgoing header set carries exactly one `Authorization` entry, valued
`"Bearer " ++ t`, regardless of any `Authorization` header copied from
the request's header list (the overlay overwrites it); and a non-bearer
auth type leaves the header set exactly as built from the header list.
The original claim fails when the token value is the empty string: the
truthiness guard of line 78 then adds no header at all. -/
theorem prepareCall_bearer_auth_amended :
    (∀ (r : PostmanRequest) (a : PostmanAuth) (l : List KVT) (kvt : KVT),
      r.auth = some a → a.type = AuthType.bearer → a.bearer = some l →
      l.find? (fun x => x.key == "token") = some kvt → kvt.value ≠ "" →
      valuesAt (prepareCall r).headers "Authorization" = ["Bearer " ++ kvt.value])
    ∧ (∀ (r : PostmanRequest) (a : PostmanAuth),
        r.auth = some a → a.type ≠ AuthType.bearer →
        headersAfterAuth r = buildHeaders r.header) := by
  constructor
  · intro r a l kvt ha ht hb hf hv
    have h2 : getKV (headersAfterAuth r) "Authorization"
        = some ("Bearer " ++ kvt.value) := by
      rw [headersAfterAuth_bearer r a l kvt ha ht hb hf hv]
      exact getKV_setKV_self _ _ _
    have h3 : getKV (finalHeaders r) "Authorization"
        = some ("Bearer " ++ kvt.value) := by
      rw [getKV_finalHeaders_ne_ct r "Authorization" (by decide)]
      exact h2
    exact valuesAt_eq_single _ _ _ (keys_nodup_finalHeaders r) h3
  · intro r a ha ht
    unfold headersAfterAuth
    rw [ha]
    obtain ⟨ty, be, oa, ba, ak⟩ := a
    cases ty <;> first | rfl | exact absurd rfl ht

/-- A bearer-auth request whose token entry holds the empty string, for
the C3 counterexample. -/
def emptyTokenRequest : PostmanRequest :=
  { method := HttpMethod.GET
    header := []
    body := none
    url := PostmanUrlField.str "https://example.test"
    auth := some { type := AuthType.bearer
                   bearer := some [{ key := "token", value := "", type := "string" }]
                   oauth2 := none, basic := none, apikey := none } }

/-- C3 counterexample: a bearer config that DOES contain a value under the
key "token" — the empty string — yields an outgoing header set with no
`Authorization` entry at all, not one valued "Bearer ". -/
theorem prepareCall_bearer_empty_token_no_header :
    (prepareCall emptyTokenRequest).headers = []
      ∧ getKV (prepareCall emptyTokenRequest).headers "Authorization" = none :=
  ⟨rfl, rfl⟩

/-- A bearer-auth request with token "abc" and a pre-existing enabled
`Authorization` header, for the C3 witness. -/
def bearerRequest : PostmanRequest :=
  { method := HttpMethod.GET
    header := [{ key := "Authorization", value := "old", type := none, disabled := none }]
    body := none
    url := PostmanUrlField.str "https://example.test"
    auth := some { type := AuthType.bearer
                   bearer := some [{ key := "token", value := "abc", type := "string" }]
                   oauth2 := none, basic := none, apikey := none } }

/-- Witness for C3 at a concrete bearer request, overwriting a
pre-existing Authorization header. -/
theorem prepareCall_bearer_auth_witness :
    valuesAt (prepareCall bearerRequest).headers "Authorization" = ["Bearer abc"] :=
  prepareCall_bearer_auth_amended.1 bearerRequest
    { type := AuthType.bearer
      bearer := some [{ key := "token", value := "abc", type := "string" }]
      oauth2 := none, basic := none, apikey := none }
    [{ key := "token", value := "abc", type := "string" }]
    { key := "token", value := "abc", type := "string" }
    rfl rfl rfl rfl (by decide)

/-!
## Claim C10: Content-Type default applies even for GET
-/

theorem lastEnabledValue_none_of_disabled (hs : List PostmanHeader) (k : String)
    (h : ∀ h1 ∈ hs, h1.key = k → h1.disabled = some true) :
    lastEnabledValue hs k = none := by
  induction hs with
  | nil => rfl
  | cons h1 hs ih =>
    have hcond : (headerKept h1 && h1.key == k) = false := by
      by_cases hk : h1.key = k
      · have hd := h h1 (by simp) hk
        simp [headerKept, hd]
      · simp [hk]
    have hstep : lastEnabledValue (h1 :: hs) k = lastEnabledValue hs k := by
      simp only [lastEnabledValue, List.foldl_cons, hcond]
      simp
    rw [hstep]
    exact ih (fun h2 hm => h h2 (List.mem_cons_of_mem _ hm))

/-- C10: for a GET request with a raw, non-empty body and no enabled
header keyed exactly "Content-Type", the outgoing header set carries
`Content-Type: application/json` even though the call itself sends no
body — the body-preparation step of lines 84-90 runs before, and
independently of, the GET guard of line 96. -/
theorem prepareCall_GET_raw_body_content_type (r : PostmanRequest)
    (b : PostmanBody) (s : String) (hm : r.method = HttpMethod.GET)
    (hb : r.body = some b) (hmode : b.mode = BodyMode.raw)
    (hraw : b.raw = some s) (hs : s ≠ "")
    (hct : ∀ h1 ∈ r.header, h1.key = "Content-Type" → h1.disabled = some true) :
    getKV (prepareCall r).headers "Content-Type" = some "application/json"
      ∧ (prepareCall r).body = none := by
  have hpb : preparedBody r = some s := by
    simp [preparedBody, hb, hmode, hraw, hs]
  constructor
  · show getKV (finalHeaders r) "Content-Type" = _
    have h1 : getKV (buildHeaders r.header) "Content-Type" = none := by
      rw [getKV_buildHeaders]
      exact lastEnabledValue_none_of_disabled r.header "Content-Type" hct
    have h2 : getKV (headersAfterAuth r) "Content-Type" = none := by
      unfold headersAfterAuth
      rw [getKV_applyAuth_ne r.auth _ "Content-Type" (by decide)]
      exact h1
    unfold finalHeaders
    rw [hpb]
    simp [h2, getKV_setKV_self]
  · show sentBody r = none
    unfold sentBody
    rw [hpb, hm]

/-- A GET request with a raw body and only a disabled Content-Type header,
for the C10 witness. -/
def getRawNoCTRequest : PostmanRequest :=
  { method := HttpMethod.GET
    header := [{ key := "Content-Type", value := "text/plain", type := none,
                 disabled := some true }]
    body := some { mode := BodyMode.raw, raw := some "hello", options := none,
                   formdata := none }
    url := PostmanUrlField.str "https://example.test"
    auth := none }

/-- Witness for C10 at a concrete GET request. -/
theorem prepareCall_GET_raw_body_content_type_witness :
    getKV (prepareCall getRawNoCTRequest).headers "Content-Type"
        = some "application/json"
      ∧ (prepareCall getRawNoCTRequest).body = none :=
  prepareCall_GET_raw_body_content_type getRawNoCTRequest
    { mode := BodyMode.raw, raw := some "hello", options := none, formdata := none }
    "hello" rfl rfl rfl rfl (by decide)
    (by intro h1 hm hk; simp [getRawNoCTRequest] at hm; subst hm; rfl)

/-!
## Claim C1 (corrected): path chains down to a Leaf
-/

/-- The specification's "path exactly matches a chain of sibling names
down to a Leaf" relation, with the documented first-match tie resolution:
`ChainTo items path leaf sibs` states that, starting from the sibling
list `items`, every segment matches (first match) a folder to descend
into, except the last segment, which matches the leaf `leaf` (a node
without a subitem list) inside its sibling list `sibs`. -/
inductive ChainTo : List PostmanItem → List String → PostmanItem → List PostmanItem → Prop where
  | last (items : List PostmanItem) (s : String) (i : PostmanItem)
      (hfind : items.find? (fun x => x.name == s) = some i)
      (hleaf : i.item = none) : ChainTo items [s] i items
  | step (items : List PostmanItem) (s : String) (rest : List String)
      (i : PostmanItem) (subs : List PostmanItem) (leaf : PostmanItem)
      (sibs : List PostmanItem)
      (hfind : items.find? (fun x => x.name == s) = some i)
      (hsub : i.item = some subs)
      (hrest : ChainTo subs rest leaf sibs) : ChainTo items (s :: rest) leaf sibs

theorem findLoop_chain (items : List PostmanItem) (p : List String)
    (leaf : PostmanItem) (sibs : List PostmanItem)
    (hc : ChainTo items p leaf sibs) :
    ∀ acc, findLoop items acc p = some leaf
      ∧ ∀ s, findLoop items acc (p ++ [s]) = sibs.find? (fun x => x.name == s) := by
  induction hc with
  | last items s i hfind hleaf =>
    intro acc
    constructor
    · simp [findLoop, hfind, hleaf]
    · intro s2
      simp only [List.cons_append, List.nil_append]
      cases hm : items.find? (fun x => x.name == s2) with
      | none => simp [findLoop, hfind, hleaf, hm]
      | some m =>
        cases hmi : m.item with
        | none => simp [findLoop, hfind, hleaf, hm, hmi]
        | some subs2 => simp [findLoop, hfind, hleaf, hm, hmi]
  | step items s rest i subs leaf sibs hfind hsub hrest ih =>
    intro acc
    constructor
    · simp only [findLoop, hfind, hsub]
      exact (ih (some i)).1
    · intro s2
      simp only [List.cons_append]
      simp only [findLoop, hfind, hsub]
      exact (ih (some i)).2 s2

/-- C1 (amended): when the path exactly matches a chain of sibling names
down to a Leaf, `findItemByPath` returns that Leaf.  However, appending an
extra segment after reaching the Leaf does not always yield not-found:
the walk stays in the Leaf's sibling list and looks the extra segment up
there — it yields not-found exactly when no sibling carries that name. -/
theorem findItemByPath_chain_to_leaf_and_extra_segment (c : PostmanCollection)
    (p : List String) (leaf : PostmanItem) (sibs : List PostmanItem)
    (hc : ChainTo c.item p leaf sibs) :
    findItemByPath c p = some leaf
      ∧ ∀ s, findItemByPath c (p ++ [s]) = sibs.find? (fun x => x.name == s) :=
  findLoop_chain c.item p leaf sibs hc none

/-- A leaf request node named "a". -/
def leafA : PostmanItem := PostmanItem.mk "a" none none none none

/-- A collection holding the single leaf "a" at top level. -/
def singleLeafCollection : PostmanCollection :=
  { info := { postman_id := "id-1", name := "c", schema := "s",
              exporter_id := none, description := none }
    item := [leafA] }

/-- C1 counterexample: the path ["a"] reaches the Leaf "a" (a node with no
subitem list), yet the extended path ["a", "a"] does NOT return not-found:
the walk keeps searching the same sibling list and returns the leaf
again. -/
theorem findItemByPath_extra_segment_after_leaf_found :
    findItemByPath singleLeafCollection ["a"] = some leafA
      ∧ leafA.item = none
      ∧ findItemByPath singleLeafCollection ["a", "a"] = some leafA :=
  ⟨rfl, rfl, rfl⟩

/-- A folder "f" holding the leaf "a". -/
def folderF : PostmanItem := PostmanItem.mk "f" (some [leafA]) none none none

/-- A collection holding folder "f" (with leaf "a" inside) at top level. -/
def folderCollection : PostmanCollection :=
  { info := { postman_id := "id-2", name := "c2", schema := "s",
              exporter_id := none, description := none }
    item := [folderF] }

/-- Witness for C1 at the concrete chain ["f", "a"]. -/
theorem findItemByPath_chain_to_leaf_witness :
    findItemByPath folderCollection ["f", "a"] = some leafA
      ∧ ∀ s, findItemByPath folderCollection (["f", "a"] ++ [s])
          = [leafA].find? (fun x => x.name == s) :=
  findItemByPath_chain_to_leaf_and_extra_segment folderCollection ["f", "a"] leafA [leafA]
    (ChainTo.step _ _ _ folderF [leafA] _ _ rfl rfl
      (ChainTo.last _ _ leafA rfl rfl))

/-!
## Claim C7: appending at an unresolved folder path is a no-op
-/

theorem pushAt_none_of_unresolved (nr : PostmanItem) :
    ∀ (p : List String), p ≠ [] →
    ∀ (current : List PostmanItem) (acc : Option PostmanItem),
    (findLoop current acc p = none
      ∨ ∃ i, findLoop current acc p = some i ∧ i.item = none) →
    pushAt nr current p = none := by
  intro p
  induction p with
  | nil => intro h; exact absurd rfl h
  | cons seg rest ih =>
    intro _ current acc h
    cases hf : current.find? (fun i => i.name == seg) with
    | none => simp [pushAt, hf]
    | some i =>
      cases hi : i.item with
      | some subs =>
        cases rest with
        | nil =>
          exfalso
          have heq : findLoop current acc [seg] = some i := by
            simp [findLoop, hf, hi]
          rcases h with h | ⟨j, hj, hji⟩
          · rw [heq] at h; exact Option.noConfusion h
          · rw [heq] at hj
            have hij : i = j := Option.some.inj hj
            rw [← hij] at hji
            rw [hji] at hi
            exact Option.noConfusion hi
        | cons r2 rest2 =>
          have heq : findLoop current acc (seg :: r2 :: rest2)
              = findLoop subs (some i) (r2 :: rest2) := by
            simp [findLoop, hf, hi]
          rw [heq] at h
          have hrec := ih (by simp) subs (some i) h
          simp only [pushAt] at hrec
          simp [pushAt, hf, hi, hrec]
      | none =>
        cases rest with
        | nil => simp [pushAt, hf, hi]
        | cons r2 rest2 =>
          have heq : findLoop current acc (seg :: r2 :: rest2)
              = findLoop current (some i) (r2 :: rest2) := by
            simp [findLoop, hf, hi]
          rw [heq] at h
          have hrec := ih (by simp) current (some i) h
          simp only [pushAt] at hrec
          simp [pushAt, hf, hi, hrec]

/-- C7: appending a new request at a folder path that does not resolve in
the target collection — not found, or landing on a node without a subitem
list (a Leaf) — leaves the collection set unchanged, with no error. -/
theorem handleAddRequest_unresolved_path_noop (cols : List PostmanCollection)
    (tid : String) (p : List String) (nr : PostmanItem) (hp : p ≠ [])
    (h : ∀ col ∈ cols, col.info.postman_id = tid →
      findItemByPath col p = none
        ∨ ∃ i, findItemByPath col p = some i ∧ i.item = none) :
    handleAddRequest cols tid (some p) nr = cols := by
  induction cols with
  | nil => rfl
  | cons c cs ih =>
    have hcs : handleAddRequest cs tid (some p) nr = cs :=
      ih (fun col hm hid => h col (List.mem_cons_of_mem _ hm) hid)
    simp only [handleAddRequest, List.map_cons] at hcs ⊢
    rw [hcs]
    by_cases hid : c.info.postman_id = tid
    · have hbeq : (c.info.postman_id == tid) = true := by simpa using hid
      cases p with
      | nil => exact absurd rfl hp
      | cons seg rest =>
        have hpush : pushAt nr c.item (seg :: rest) = none :=
          pushAt_none_of_unresolved nr (seg :: rest) (by simp) c.item none
            (h c (by simp) hid)
        simp [hbeq, hpush]
    · have hbeq : (c.info.postman_id == tid) = false := by simpa using hid
      simp [hbeq]

/-- A collection with no folder at all, for the C7 witness. -/
def noFolderCollection : PostmanCollection :=
  { info := { postman_id := "cid", name := "n", schema := "s",
              exporter_id := none, description := none }
    item := [leafA] }

/-- Witness for C7: appending at the non-existent folder path ["missing"]
leaves the singleton collection set unchanged. -/
theorem handleAddRequest_unresolved_path_noop_witness :
    handleAddRequest [noFolderCollection] "cid" (some ["missing"]) leafA
      = [noFolderCollection] :=
  handleAddRequest_unresolved_path_noop [noFolderCollection] "cid" ["missing"] leafA
    (by simp)
    (by intro col hm hid
        simp only [List.mem_singleton] at hm
        subst hm
        left
        rfl)

/-!
## Round-trip lemmas for the serialization (claim C4)
-/

theorem getField_append (a b : List (String × Json)) (k : String) :
    getField (a ++ b) k = match getField a k with
      | some v => some v
      | none => getField b k := by
  induction a with
  | nil => simp [getField]
  | cons p rest ih =>
    obtain ⟨k1, v⟩ := p
    by_cases h : k1 = k <;> simp [getField, h, ih]

@[simp] theorem getField_optField_self (k : String) (o : Option Json) :
    getField (optField k o) k = o := by
  cases o <;> simp [optField, getField]

@[simp] theorem getField_optField_ne (k k2 : String) (o : Option Json)
    (h : ¬k = k2) : getField (optField k o) k2 = none := by
  cases o <;> simp [optField, getField, h]

theorem stringToMethod_methodToString (m : HttpMethod) :
    stringToMethod (methodToString m) = some m := by
  cases m <;> rfl

theorem stringToAuthType_authTypeToString (a : AuthType) :
    stringToAuthType (authTypeToString a) = some a := by
  cases a <;> rfl

theorem stringToBodyMode_bodyModeToString (b : BodyMode) :
    stringToBodyMode (bodyModeToString b) = some b := by
  cases b <;> rfl

theorem decodeList_map {α : Type} (f : Json → Option α) (g : α → Json)
    (h : ∀ x, f (g x) = some x) : ∀ l, decodeList f (l.map g) = some l := by
  intro l
  induction l with
  | nil => rfl
  | cons x xs ih => simp [decodeList, h, ih]

theorem decodeKVT_encodeKVT (x : KVT) : decodeKVT (encodeKVT x) = some x := by
  obtain ⟨k, v, t⟩ := x
  simp [encodeKVT, decodeKVT, getField, asStr]

theorem decodeQueryParam_encodeQueryParam (q : QueryParam) :
    decodeQueryParam (encodeQueryParam q) = some q := by
  obtain ⟨k, v⟩ := q
  simp [encodeQueryParam, decodeQueryParam, getField, asStr]

theorem decodeList_str (l : List String) :
    decodeList asStr (l.map Json.str) = some l :=
  decodeList_map asStr Json.str (fun _ => rfl) l

theorem decodeList_kvt (l : List KVT) :
    decodeList decodeKVT (l.map encodeKVT) = some l :=
  decodeList_map _ _ decodeKVT_encodeKVT l

theorem decodeList_qp (l : List QueryParam) :
    decodeList decodeQueryParam (l.map encodeQueryParam) = some l :=
  decodeList_map _ _ decodeQueryParam_encodeQueryParam l

theorem decodeInfo_encodeInfo (i : CollectionInfo) :
    decodeInfo (encodeInfo i) = some i := by
  obtain ⟨pid, nm, sc, ex, de⟩ := i
  cases ex <;> cases de <;>
    simp [encodeInfo, decodeInfo, getField, getField_append, optOf, asStr]

theorem decodeRawOptions_encodeRawOptions (ro : RawOptions) :
    decodeRawOptions (encodeRawOptions ro) = some ro := by
  obtain ⟨lang⟩ := ro
  simp [encodeRawOptions, decodeRawOptions, getField, asStr]

theorem decodeBodyOptions_encodeBodyOptions (bo : BodyOptions) :
    decodeBodyOptions (encodeBodyOptions bo) = some bo := by
  obtain ⟨ro⟩ := bo
  cases ro <;>
    simp [encodeBodyOptions, decodeBodyOptions, optOf, decodeRawOptions_encodeRawOptions]

theorem decodeBody_encodeBody (b : PostmanBody) :
    decodeBody (encodeBody b) = some b := by
  obtain ⟨mode, raw, opts, fd⟩ := b
  cases raw <;> cases opts <;> cases fd <;>
    simp [encodeBody, decodeBody, getField, getField_append, optOf, asStr, asArr,
          stringToBodyMode_bodyModeToString, decodeBodyOptions_encodeBodyOptions,
          decodeList_kvt]

theorem decodeHeader_encodeHeader (h : PostmanHeader) :
    decodeHeader (encodeHeader h) = some h := by
  obtain ⟨k, v, t, d⟩ := h
  cases t <;> cases d <;>
    simp [encodeHeader, decodeHeader, getField, getField_append, optOf, asStr, asBool]

theorem decodeList_header (l : List PostmanHeader) :
    decodeList decodeHeader (l.map encodeHeader) = some l :=
  decodeList_map _ _ decodeHeader_encodeHeader l

theorem decodeUrlField_encodeUrlField (u : PostmanUrlField) :
    decodeUrlField (encodeUrlField u) = some u := by
  cases u with
  | str s => rfl
  | obj uo =>
    obtain ⟨raw, proto, host, port, path, query⟩ := uo
    cases proto <;> cases host <;> cases port <;> cases path <;> cases query <;>
      simp [encodeUrlField, encodeUrlObj, decodeUrlField, decodeUrlObj, getField,
            getField_append, optOf, asStr, asArr, decodeList_str, decodeList_qp]

theorem decodeAuth_encodeAuth (a : PostmanAuth) :
    decodeAuth (encodeAuth a) = some a := by
  obtain ⟨ty, be, oa, ba, ak⟩ := a
  cases be <;> cases oa <;> cases ba <;> cases ak <;>
    simp [encodeAuth, decodeAuth, getField, getField_append, optOf, asStr, asArr,
          stringToAuthType_authTypeToString, decodeList_kvt]

theorem decodeRequest_encodeRequest (r : PostmanRequest) :
    decodeRequest (encodeRequest r) = some r := by
  obtain ⟨m, hdr, body, url, auth⟩ := r
  cases body <;> cases auth <;>
    simp [encodeRequest, decodeRequest, getField, getField_append, optOf, asStr,
          asArr, stringToMethod_methodToString, decodeList_header,
          decodeBody_encodeBody, decodeUrlField_encodeUrlField, decodeAuth_encodeAuth]

mutual

/-- Decoding fuel needed for an item tree: one unit per tree level plus
one per list element, matching the fuel consumption of `decodeItem` and
`decodeItemL`. -/
def itemFuel : PostmanItem → Nat
  | .mk _ none _ _ _ => 1
  | .mk _ (some l) _ _ _ => 1 + itemListFuel l

def itemListFuel : List PostmanItem → Nat
  | [] => 0
  | x :: xs => 1 + max (itemFuel x) (itemListFuel xs)

end

theorem decodeItem_encodeItem_aux : ∀ fuel : Nat,
    (∀ it : PostmanItem, itemFuel it ≤ fuel →
      decodeItem fuel (encodeItem it) = some it)
    ∧ (∀ l : List PostmanItem, itemListFuel l ≤ fuel →
        decodeItemL fuel (encodeItemList l) = some l) := by
  intro fuel
  induction fuel with
  | zero =>
    constructor
    · intro it h
      exfalso
      cases it with
      | mk nm sub req resp ppb => cases sub <;> simp [itemFuel] at h
    · intro l h
      cases l with
      | nil => rfl
      | cons x xs => simp [itemListFuel] at h
  | succ f ih =>
    obtain ⟨ihI, ihL⟩ := ih
    constructor
    · intro it h
      cases it with
      | mk nm sub req resp ppb =>
        cases sub with
        | none =>
          cases req <;> cases resp <;> cases ppb <;>
            simp [encodeItem, decodeItem, getField, getField_append, optField,
                  optOf, asStr, asArr, decodeRequest_encodeRequest]
        | some l =>
          have hl : itemListFuel l ≤ f := by
            simp [itemFuel] at h
            omega
          have hL := ihL l hl
          cases req <;> cases resp <;> cases ppb <;>
            simp [encodeItem, decodeItem, getField, getField_append, optField,
                  optOf, asStr, asArr, decodeRequest_encodeRequest, hL]
    · intro l h
      cases l with
      | nil => rfl
      | cons x xs =>
        simp only [itemListFuel] at h
        have hx := ihI x (by omega)
        have hxs := ihL xs (by omega)
        simp [encodeItemList, decodeItemL, hx, hxs]

theorem jsonSizeF_append (a b : List (String × Json)) :
    jsonSizeF (a ++ b) = jsonSizeF a + jsonSizeF b := by
  induction a with
  | nil => simp [jsonSizeF]
  | cons p rest ih =>
    obtain ⟨k, v⟩ := p
    simp [jsonSizeF, ih]
    omega

theorem itemFuel_le_jsonSize_aux : ∀ n : Nat,
    (∀ it : PostmanItem, sizeOf it ≤ n → itemFuel it ≤ jsonSize (encodeItem it))
    ∧ (∀ l : List PostmanItem, sizeOf l ≤ n →
        itemListFuel l ≤ jsonSizeL (encodeItemList l)) := by
  intro n
  induction n with
  | zero =>
    constructor
    · intro it h
      exfalso
      cases it with
      | mk nm sub req resp ppb => simp at h
    · intro l h
      cases l with
      | nil => simp [itemListFuel]
      | cons x xs =>
        exfalso
        simp at h
  | succ n ih =>
    obtain ⟨ihI, ihL⟩ := ih
    constructor
    · intro it h
      cases it with
      | mk nm sub req resp ppb =>
        cases sub with
        | none =>
          simp [itemFuel, encodeItem, jsonSize, jsonSizeF_append, jsonSizeF]
        | some l =>
          have hsz : sizeOf l ≤ n := by
            simp at h
            omega
          have hL := ihL l hsz
          simp [itemFuel, encodeItem, jsonSize, jsonSizeF_append, jsonSizeF,
                jsonSizeL]
          omega
    · intro l h
      cases l with
      | nil => simp [itemListFuel]
      | cons x xs =>
        have h1 : sizeOf x ≤ n := by
          simp at h
          omega
        have h2 : sizeOf xs ≤ n := by
          simp at h
          omega
        have hx := ihI x h1
        have hxs := ihL xs h2
        simp [itemListFuel, encodeItemList, jsonSizeL]
        omega

theorem decodeCollection_export (c : PostmanCollection) (fuel : Nat)
    (hf : itemListFuel c.item ≤ fuel) :
    decodeCollection fuel (exportCollection c) = some c := by
  obtain ⟨info, items⟩ := c
  have hdec := (decodeItem_encodeItem_aux fuel).2 items hf
  simp [exportCollection, decodeCollection, getField, decodeInfo_encodeInfo,
        asArr, hdec]

theorem parsePostmanCollection_exportCollection (c : PostmanCollection) :
    parsePostmanCollection (exportCollection c) = some c := by
  unfold parsePostmanCollection
  apply decodeCollection_export
  obtain ⟨info, items⟩ := c
  have hb := (itemFuel_le_jsonSize_aux (sizeOf items)).2 items (le_refl _)
  simp only [exportCollection, jsonSize, jsonSizeF, jsonSizeL]
  omega

/-!
## Claim C4: serialization round trip
-/

/-- C4: for every collection of the document model, deserializing the
serialized form yields the same collection —
`parsePostmanCollection (JSON.parse (exportCollection c)) == c`, with
`JSON.parse ∘ JSON.stringify` the identity at the JSON-value level. -/
theorem exportCollection_roundtrip (c : PostmanCollection) :
    parsePostmanCollection (exportCollection c) = some c :=
  parsePostmanCollection_exportCollection c

/-!
## Claim C8: directory listing filters and per-entry failure isolation
-/

/-- C8: directory listing considers only entries of kind "file" whose name
ends with ".collection.json"; a matching entry whose read/parse failed
(content `none`) is skipped without aborting the remaining entries: with
one corrupt entry among three matching file entries, exactly the two valid
collections are returned, in order. -/
theorem loadCollectionsFromFolder_skips_bad_entries
    (n0 n1 n2 n3 n4 : String) (c0 c1 c3 c4 : PostmanCollection)
    (h0 : strEndsWith n0 ".collection.json" = false)
    (h1 : strEndsWith n1 ".collection.json" = true)
    (h2 : strEndsWith n2 ".collection.json" = true)
    (h3 : strEndsWith n3 ".collection.json" = true)
    (h4 : strEndsWith n4 ".collection.json" = true) :
    loadCollectionsFromFolder
      [⟨n0, "file", some (exportCollection c0)⟩,
       ⟨n1, "file", some (exportCollection c1)⟩,
       ⟨n2, "file", none⟩,
       ⟨n3, "file", some (exportCollection c3)⟩,
       ⟨n4, "directory", some (exportCollection c4)⟩] = [c1, c3] := by
  simp [loadCollectionsFromFolder, List.filterMap_cons, h0, h1, h2, h3, h4,
        parsePostmanCollection_exportCollection]

/-- An empty collection named "A", for the C8 witness. -/
def witnessCollectionA : PostmanCollection :=
  { info := { postman_id := "wa", name := "A", schema := "s",
              exporter_id := none, description := none }
    item := [] }

/-- An empty collection named "B", for the C8 witness. -/
def witnessCollectionB : PostmanCollection :=
  { info := { postman_id := "wb", name := "B", schema := "s",
              exporter_id := none, description := none }
    item := [] }

/-- Witness for C8 at a concrete directory: a non-matching file, three
matching files with the middle one corrupt, and a matching directory
entry. -/
theorem loadCollectionsFromFolder_skips_bad_entries_witness :
    loadCollectionsFromFolder
      [⟨"notes.txt", "file", some (exportCollection witnessCollectionA)⟩,
       ⟨"a.collection.json", "file", some (exportCollection witnessCollectionA)⟩,
       ⟨"bad.collection.json", "file", none⟩,
       ⟨"b.collection.json", "file", some (exportCollection witnessCollectionB)⟩,
       ⟨"dir.collection.json", "directory", some (exportCollection witnessCollectionB)⟩]
      = [witnessCollectionA, witnessCollectionB] :=
  loadCollectionsFromFolder_skips_bad_entries
    "notes.txt" "a.collection.json" "bad.collection.json" "b.collection.json"
    "dir.collection.json" witnessCollectionA witnessCollectionA witnessCollectionB
    witnessCollectionB (by decide) (by decide) (by decide) (by decide) (by decide)
